import Mathlib

set_option maxHeartbeats 1000000
set_option maxRecDepth 20000

namespace DvrRecover

/-! Shallow embedding of dvr-recover.py (MPEG recording recovery tool).
Bytes are natural numbers below 256; Python integers are `Int` where
subtraction matters and `Nat` where the source only counts upward.  Python
`None` becomes `Option`, raised exceptions become `Except` errors. -/

/-- Error classes of dvr-recover.py that the embedded fragments can raise.
`typeError` and `attributeError` stand for Python's built-in TypeError and
AttributeError (raised by slips in the source, not by design). -/
inductive Err where
  | createError
  | exportError
  | unexpectedResult
  | fileReaderError
  | typeError
  | attributeError
  deriving Repr, DecidableEq

/-! ## HeaderParser (ChunkFactory.mpeg_header) -/

/-- Translation of ChunkFactory.mpeg_header: verify the sync bytes
0x00 0x00 0x01 0xBA, verify the four marker bits, then reassemble the 33
System Clock Reference bits distributed over bytes 4 to 8.  A buffer shorter
than 9 bytes yields no match (the scanner always passes a full block). -/
def mpeg_header (buf : List Nat) : Option Nat :=
  match buf with
  | b0 :: b1 :: b2 :: b3 :: b4 :: b5 :: b6 :: b7 :: b8 :: _ =>
    if b0 ≠ 0x00 ∨ b1 ≠ 0x00 ∨ b2 ≠ 0x01 ∨ b3 ≠ 0xBA then none
    else
      let marker_bit_1 := (b4 &&& (3 <<< 6)) >>> 6
      let marker_bit_2 := (b4 &&& (1 <<< 2)) >>> 2
      let marker_bit_3 := (b6 &&& (1 <<< 2)) >>> 2
      let marker_bit_4 := (b8 &&& (1 <<< 2)) >>> 2
      if marker_bit_1 ≠ 1 ∨ marker_bit_2 ≠ 1 ∨ marker_bit_3 ≠ 1 ∨ marker_bit_4 ≠ 1 then
        none
      else
        let c32 := (b4 &&& (1 <<< 5)) >>> 5
        let c31 := (b4 &&& (1 <<< 4)) >>> 4
        let c30 := (b4 &&& (1 <<< 3)) >>> 3
        let c29 := (b4 &&& (1 <<< 1)) >>> 1
        let c28 := (b4 &&& (1 <<< 0)) >>> 0
        let c27 := (b5 &&& (1 <<< 7)) >>> 7
        let c26 := (b5 &&& (1 <<< 6)) >>> 6
        let c25 := (b5 &&& (1 <<< 5)) >>> 5
        let c24 := (b5 &&& (1 <<< 4)) >>> 4
        let c23 := (b5 &&& (1 <<< 3)) >>> 3
        let c22 := (b5 &&& (1 <<< 2)) >>> 2
        let c21 := (b5 &&& (1 <<< 1)) >>> 1
        let c20 := (b5 &&& (1 <<< 0)) >>> 0
        let c19 := (b6 &&& (1 <<< 7)) >>> 7
        let c18 := (b6 &&& (1 <<< 6)) >>> 6
        let c17 := (b6 &&& (1 <<< 5)) >>> 5
        let c16 := (b6 &&& (1 <<< 4)) >>> 4
        let c15 := (b6 &&& (1 <<< 3)) >>> 3
        let c14 := (b6 &&& (1 <<< 1)) >>> 1
        let c13 := (b6 &&& (1 <<< 0)) >>> 0
        let c12 := (b7 &&& (1 <<< 7)) >>> 7
        let c11 := (b7 &&& (1 <<< 6)) >>> 6
        let c10 := (b7 &&& (1 <<< 5)) >>> 5
        let c9 := (b7 &&& (1 <<< 4)) >>> 4
        let c8 := (b7 &&& (1 <<< 3)) >>> 3
        let c7 := (b7 &&& (1 <<< 2)) >>> 2
        let c6 := (b7 &&& (1 <<< 1)) >>> 1
        let c5 := (b7 &&& (1 <<< 0)) >>> 0
        let c4 := (b8 &&& (1 <<< 7)) >>> 7
        let c3 := (b8 &&& (1 <<< 6)) >>> 6
        let c2 := (b8 &&& (1 <<< 5)) >>> 5
        let c1 := (b8 &&& (1 <<< 4)) >>> 4
        let c0 := (b8 &&& (1 <<< 3)) >>> 3
        some (c0 * 2 ^ 0 + c1 * 2 ^ 1 + c2 * 2 ^ 2 + c3 * 2 ^ 3 + c4 * 2 ^ 4 +
              c5 * 2 ^ 5 + c6 * 2 ^ 6 + c7 * 2 ^ 7 + c8 * 2 ^ 8 + c9 * 2 ^ 9 +
              c10 * 2 ^ 10 + c11 * 2 ^ 11 + c12 * 2 ^ 12 + c13 * 2 ^ 13 +
              c14 * 2 ^ 14 + c15 * 2 ^ 15 + c16 * 2 ^ 16 + c17 * 2 ^ 17 +
              c18 * 2 ^ 18 + c19 * 2 ^ 19 + c20 * 2 ^ 20 + c21 * 2 ^ 21 +
              c22 * 2 ^ 22 + c23 * 2 ^ 23 + c24 * 2 ^ 24 + c25 * 2 ^ 25 +
              c26 * 2 ^ 26 + c27 * 2 ^ 27 + c28 * 2 ^ 28 + c29 * 2 ^ 29 +
              c30 * 2 ^ 30 + c31 * 2 ^ 31 + c32 * 2 ^ 32)
  | _ => none

/-- Bit i of a clock value, written with division and remainder. -/
def scrBit (v i : Nat) : Nat := v / 2 ^ i % 2

/-- Spec-side encoder for the documented Partial Program Stream Pack header
layout: sync bytes, the four marker bits set, and the 33 SCR bits of v
distributed over bytes 4 to 8 exactly as the table in the source comments
describes.  Used to state the round-trip property of the parser. -/
def encode (v : Nat) : List Nat :=
  [0x00, 0x00, 0x01, 0xBA,
   64 + scrBit v 32 * 32 + scrBit v 31 * 16 + scrBit v 30 * 8 + 4 +
     scrBit v 29 * 2 + scrBit v 28,
   scrBit v 27 * 128 + scrBit v 26 * 64 + scrBit v 25 * 32 + scrBit v 24 * 16 +
     scrBit v 23 * 8 + scrBit v 22 * 4 + scrBit v 21 * 2 + scrBit v 20,
   scrBit v 19 * 128 + scrBit v 18 * 64 + scrBit v 17 * 32 + scrBit v 16 * 16 +
     scrBit v 15 * 8 + 4 + scrBit v 14 * 2 + scrBit v 13,
   scrBit v 12 * 128 + scrBit v 11 * 64 + scrBit v 10 * 32 + scrBit v 9 * 16 +
     scrBit v 8 * 8 + scrBit v 7 * 4 + scrBit v 6 * 2 + scrBit v 5,
   scrBit v 4 * 128 + scrBit v 3 * 64 + scrBit v 2 * 32 + scrBit v 1 * 16 +
     scrBit v 0 * 8 + 4]

/-- Extracting a single masked bit equals division and remainder. -/
theorem extract_one_bit (x k : Nat) : (x &&& (1 <<< k)) >>> k = x / 2 ^ k % 2 := by
  rw [Nat.shiftLeft_eq, one_mul, Nat.and_two_pow, Nat.shiftRight_eq_div_pow,
    Nat.mul_div_cancel _ (Nat.two_pow_pos k)]
  rw [Nat.testBit_to_div_mod]
  rcases Nat.mod_two_eq_zero_or_one (x / 2 ^ k) with h | h <;> simp [h]

/-- Extracting the top two-bit field of a byte equals division by 64. -/
theorem extract_top_two : ∀ x < 256, (x &&& (3 <<< 6)) >>> 6 = x / 64 := by decide

/-- Each clock bit is zero or one. -/
theorem scrBit_le (v i : Nat) : scrBit v i ≤ 1 := by
  unfold scrBit; omega

/-- C6: for every 33-bit value v, parsing the 9-byte buffer that encodes v per
the documented header bit layout returns exactly v (round trip). -/
theorem mpeg_header_encode (v : Nat) (hv : v < 2 ^ 33) :
    mpeg_header (encode v) = some v := by
  have h0 := scrBit_le v 0
  have h1 := scrBit_le v 1
  have h2 := scrBit_le v 2
  have h3 := scrBit_le v 3
  have h4 := scrBit_le v 4
  have h5 := scrBit_le v 5
  have h6 := scrBit_le v 6
  have h7 := scrBit_le v 7
  have h8 := scrBit_le v 8
  have h9 := scrBit_le v 9
  have h10 := scrBit_le v 10
  have h11 := scrBit_le v 11
  have h12 := scrBit_le v 12
  have h13 := scrBit_le v 13
  have h14 := scrBit_le v 14
  have h15 := scrBit_le v 15
  have h16 := scrBit_le v 16
  have h17 := scrBit_le v 17
  have h18 := scrBit_le v 18
  have h19 := scrBit_le v 19
  have h20 := scrBit_le v 20
  have h21 := scrBit_le v 21
  have h22 := scrBit_le v 22
  have h23 := scrBit_le v 23
  have h24 := scrBit_le v 24
  have h25 := scrBit_le v 25
  have h26 := scrBit_le v 26
  have h27 := scrBit_le v 27
  have h28 := scrBit_le v 28
  have h29 := scrBit_le v 29
  have h30 := scrBit_le v 30
  have h31 := scrBit_le v 31
  have h32 := scrBit_le v 32
  have b4lt : 64 + scrBit v 32 * 32 + scrBit v 31 * 16 + scrBit v 30 * 8 + 4 +
      scrBit v 29 * 2 + scrBit v 28 < 256 := by omega
  simp only [encode, mpeg_header, extract_one_bit]
  rw [extract_top_two _ b4lt]
  norm_num
  refine ⟨⟨?_, ?_, ?_, ?_⟩, ?_⟩
  · omega
  · omega
  · omega
  · omega
  · have E : (scrBit v 4 * 128 + scrBit v 3 * 64 + scrBit v 2 * 32 + scrBit v 1 * 16 + scrBit v 0 * 8 + 4) / 8 % 2 = scrBit v 0 ∧
      (scrBit v 4 * 128 + scrBit v 3 * 64 + scrBit v 2 * 32 + scrBit v 1 * 16 + scrBit v 0 * 8 + 4) / 16 % 2 = scrBit v 1 ∧
      (scrBit v 4 * 128 + scrBit v 3 * 64 + scrBit v 2 * 32 + scrBit v 1 * 16 + scrBit v 0 * 8 + 4) / 32 % 2 = scrBit v 2 ∧
      (scrBit v 4 * 128 + scrBit v 3 * 64 + scrBit v 2 * 32 + scrBit v 1 * 16 + scrBit v 0 * 8 + 4) / 64 % 2 = scrBit v 3 ∧
      (scrBit v 4 * 128 + scrBit v 3 * 64 + scrBit v 2 * 32 + scrBit v 1 * 16 + scrBit v 0 * 8 + 4) / 128 % 2 = scrBit v 4 ∧
      (scrBit v 12 * 128 + scrBit v 11 * 64 + scrBit v 10 * 32 + scrBit v 9 * 16 + scrBit v 8 * 8 + scrBit v 7 * 4 + scrBit v 6 * 2 + scrBit v 5) % 2 = scrBit v 5 ∧
      (scrBit v 12 * 128 + scrBit v 11 * 64 + scrBit v 10 * 32 + scrBit v 9 * 16 + scrBit v 8 * 8 + scrBit v 7 * 4 + scrBit v 6 * 2 + scrBit v 5) / 2 % 2 = scrBit v 6 ∧
      (scrBit v 12 * 128 + scrBit v 11 * 64 + scrBit v 10 * 32 + scrBit v 9 * 16 + scrBit v 8 * 8 + scrBit v 7 * 4 + scrBit v 6 * 2 + scrBit v 5) / 4 % 2 = scrBit v 7 ∧
      (scrBit v 12 * 128 + scrBit v 11 * 64 + scrBit v 10 * 32 + scrBit v 9 * 16 + scrBit v 8 * 8 + scrBit v 7 * 4 + scrBit v 6 * 2 + scrBit v 5) / 8 % 2 = scrBit v 8 ∧
      (scrBit v 12 * 128 + scrBit v 11 * 64 + scrBit v 10 * 32 + scrBit v 9 * 16 + scrBit v 8 * 8 + scrBit v 7 * 4 + scrBit v 6 * 2 + scrBit v 5) / 16 % 2 = scrBit v 9 ∧
      (scrBit v 12 * 128 + scrBit v 11 * 64 + scrBit v 10 * 32 + scrBit v 9 * 16 + scrBit v 8 * 8 + scrBit v 7 * 4 + scrBit v 6 * 2 + scrBit v 5) / 32 % 2 = scrBit v 10 ∧
      (scrBit v 12 * 128 + scrBit v 11 * 64 + scrBit v 10 * 32 + scrBit v 9 * 16 + scrBit v 8 * 8 + scrBit v 7 * 4 + scrBit v 6 * 2 + scrBit v 5) / 64 % 2 = scrBit v 11 ∧
      (scrBit v 12 * 128 + scrBit v 11 * 64 + scrBit v 10 * 32 + scrBit v 9 * 16 + scrBit v 8 * 8 + scrBit v 7 * 4 + scrBit v 6 * 2 + scrBit v 5) / 128 % 2 = scrBit v 12 ∧
      (scrBit v 19 * 128 + scrBit v 18 * 64 + scrBit v 17 * 32 + scrBit v 16 * 16 + scrBit v 15 * 8 + 4 + scrBit v 14 * 2 + scrBit v 13) % 2 = scrBit v 13 ∧
      (scrBit v 19 * 128 + scrBit v 18 * 64 + scrBit v 17 * 32 + scrBit v 16 * 16 + scrBit v 15 * 8 + 4 + scrBit v 14 * 2 + scrBit v 13) / 2 % 2 = scrBit v 14 ∧
      (scrBit v 19 * 128 + scrBit v 18 * 64 + scrBit v 17 * 32 + scrBit v 16 * 16 + scrBit v 15 * 8 + 4 + scrBit v 14 * 2 + scrBit v 13) / 8 % 2 = scrBit v 15 ∧
      (scrBit v 19 * 128 + scrBit v 18 * 64 + scrBit v 17 * 32 + scrBit v 16 * 16 + scrBit v 15 * 8 + 4 + scrBit v 14 * 2 + scrBit v 13) / 16 % 2 = scrBit v 16 ∧
      (scrBit v 19 * 128 + scrBit v 18 * 64 + scrBit v 17 * 32 + scrBit v 16 * 16 + scrBit v 15 * 8 + 4 + scrBit v 14 * 2 + scrBit v 13) / 32 % 2 = scrBit v 17 ∧
      (scrBit v 19 * 128 + scrBit v 18 * 64 + scrBit v 17 * 32 + scrBit v 16 * 16 + scrBit v 15 * 8 + 4 + scrBit v 14 * 2 + scrBit v 13) / 64 % 2 = scrBit v 18 ∧
      (scrBit v 19 * 128 + scrBit v 18 * 64 + scrBit v 17 * 32 + scrBit v 16 * 16 + scrBit v 15 * 8 + 4 + scrBit v 14 * 2 + scrBit v 13) / 128 % 2 = scrBit v 19 ∧
      (scrBit v 27 * 128 + scrBit v 26 * 64 + scrBit v 25 * 32 + scrBit v 24 * 16 + scrBit v 23 * 8 + scrBit v 22 * 4 + scrBit v 21 * 2 + scrBit v 20) % 2 = scrBit v 20 ∧
      (scrBit v 27 * 128 + scrBit v 26 * 64 + scrBit v 25 * 32 + scrBit v 24 * 16 + scrBit v 23 * 8 + scrBit v 22 * 4 + scrBit v 21 * 2 + scrBit v 20) / 2 % 2 = scrBit v 21 ∧
      (scrBit v 27 * 128 + scrBit v 26 * 64 + scrBit v 25 * 32 + scrBit v 24 * 16 + scrBit v 23 * 8 + scrBit v 22 * 4 + scrBit v 21 * 2 + scrBit v 20) / 4 % 2 = scrBit v 22 ∧
      (scrBit v 27 * 128 + scrBit v 26 * 64 + scrBit v 25 * 32 + scrBit v 24 * 16 + scrBit v 23 * 8 + scrBit v 22 * 4 + scrBit v 21 * 2 + scrBit v 20) / 8 % 2 = scrBit v 23 ∧
      (scrBit v 27 * 128 + scrBit v 26 * 64 + scrBit v 25 * 32 + scrBit v 24 * 16 + scrBit v 23 * 8 + scrBit v 22 * 4 + scrBit v 21 * 2 + scrBit v 20) / 16 % 2 = scrBit v 24 ∧
      (scrBit v 27 * 128 + scrBit v 26 * 64 + scrBit v 25 * 32 + scrBit v 24 * 16 + scrBit v 23 * 8 + scrBit v 22 * 4 + scrBit v 21 * 2 + scrBit v 20) / 32 % 2 = scrBit v 25 ∧
      (scrBit v 27 * 128 + scrBit v 26 * 64 + scrBit v 25 * 32 + scrBit v 24 * 16 + scrBit v 23 * 8 + scrBit v 22 * 4 + scrBit v 21 * 2 + scrBit v 20) / 64 % 2 = scrBit v 26 ∧
      (scrBit v 27 * 128 + scrBit v 26 * 64 + scrBit v 25 * 32 + scrBit v 24 * 16 + scrBit v 23 * 8 + scrBit v 22 * 4 + scrBit v 21 * 2 + scrBit v 20) / 128 % 2 = scrBit v 27 ∧
      (64 + scrBit v 32 * 32 + scrBit v 31 * 16 + scrBit v 30 * 8 + 4 + scrBit v 29 * 2 + scrBit v 28) % 2 = scrBit v 28 ∧
      (64 + scrBit v 32 * 32 + scrBit v 31 * 16 + scrBit v 30 * 8 + 4 + scrBit v 29 * 2 + scrBit v 28) / 2 % 2 = scrBit v 29 ∧
      (64 + scrBit v 32 * 32 + scrBit v 31 * 16 + scrBit v 30 * 8 + 4 + scrBit v 29 * 2 + scrBit v 28) / 8 % 2 = scrBit v 30 ∧
      (64 + scrBit v 32 * 32 + scrBit v 31 * 16 + scrBit v 30 * 8 + 4 + scrBit v 29 * 2 + scrBit v 28) / 16 % 2 = scrBit v 31 ∧
      (64 + scrBit v 32 * 32 + scrBit v 31 * 16 + scrBit v 30 * 8 + 4 + scrBit v 29 * 2 + scrBit v 28) / 32 % 2 = scrBit v 32 := by
      refine ⟨?_, ?_, ?_, ?_, ?_, ?_, ?_, ?_, ?_, ?_, ?_, ?_, ?_, ?_, ?_, ?_, ?_, ?_, ?_, ?_, ?_, ?_, ?_, ?_, ?_, ?_, ?_, ?_, ?_, ?_, ?_, ?_, ?_⟩ <;> omega
    obtain ⟨E0, E1, E2, E3, E4, E5, E6, E7, E8, E9, E10, E11, E12, E13, E14, E15, E16, E17, E18, E19, E20, E21, E22, E23, E24, E25, E26, E27, E28, E29, E30, E31, E32⟩ := E
    rw [E0, E1, E2, E3, E4, E5, E6, E7, E8, E9, E10, E11, E12, E13, E14, E15, E16, E17, E18, E19, E20, E21, E22, E23, E24, E25, E26, E27, E28, E29, E30, E31, E32]
    clear E0 E1 E2 E3 E4 E5 E6 E7 E8 E9 E10 E11 E12 E13 E14 E15 E16 E17 E18 E19 E20 E21 E22 E23 E24 E25 E26 E27 E28 E29 E30 E31 E32
    clear h0 h1 h2 h3 h4 h5 h6 h7 h8 h9 h10 h11 h12 h13 h14 h15 h16 h17 h18 h19 h20 h21 h22 h23 h24 h25 h26 h27 h28 h29 h30 h31 h32 b4lt
    unfold scrBit
    set_option maxHeartbeats 4000000 in omega

/-- Witness for the round-trip theorem at the concrete value 2^33 - 1. -/
theorem mpeg_header_encode_witness :
    (8589934591 : Nat) < 2 ^ 33 ∧ mpeg_header (encode 8589934591) = some 8589934591 :=
  ⟨by norm_num, mpeg_header_encode 8589934591 (by norm_num)⟩

/-- C10: a 9-byte buffer with valid sync bytes and all four marker bits set,
but with the most significant bit of byte 4 also set (so the two-bit field at
the top of byte 4 reads 11 rather than the required 01), is rejected: the
parser checks the full two-bit field against 1. -/
theorem mpeg_header_top_bits (b4 b5 b6 b7 b8 : Nat) (hb4 : b4 < 256)
    (hm1 : b4 / 64 % 2 = 1) (hm2 : b4 / 4 % 2 = 1) (hm3 : b6 / 4 % 2 = 1)
    (hm4 : b8 / 4 % 2 = 1) (htop : b4 / 128 % 2 = 1) :
    mpeg_header [0x00, 0x00, 0x01, 0xBA, b4, b5, b6, b7, b8] = none := by
  simp only [mpeg_header, extract_one_bit]
  rw [extract_top_two _ hb4]
  have h3 : b4 / 64 = 3 := by omega
  rw [h3]
  norm_num

/-- Witness for the top-bits rejection theorem at byte 4 = 0xC4. -/
theorem mpeg_header_top_bits_witness :
    mpeg_header [0x00, 0x00, 0x01, 0xBA, 0xC4, 0, 4, 0, 4] = none :=
  mpeg_header_top_bits 0xC4 0 4 0 4 (by norm_num) (by norm_num) (by norm_num)
    (by norm_num) (by norm_num) (by norm_num)

/-! ## ChunkScanner (Main.create / ChunkFactory)

The scan is modelled over the per-block parse outcomes: a list whose i-th
entry is the result of mpeg_header on block i (some clock on a match, none
otherwise).  The sqlite chunk table is the list of persisted chunk records in
insertion order. -/

/-- Scan configuration: min_chunk_size and max_create_gap from the settings. -/
structure ScanCfg where
  min_chunk_size : Int
  max_gap : Int
  deriving Repr, DecidableEq

/-- Persisted chunk record as inserted by ChunkFactory.split.  block_size is
an integer because the source computes it by subtraction (it can be negative
when a chunk opens on the final block); clock fields are nullable columns. -/
structure ChunkRec where
  block_start : Nat
  block_size : Int
  clock_start : Option Nat
  clock_end : Option Nat
  deriving Repr, DecidableEq

/-- In-memory open chunk: a Chunk object whose fields start out as None. -/
structure OpenChunk where
  block_start : Option Nat
  clock_start : Option Nat
  deriving Repr, DecidableEq

/-- Mutable state of ChunkFactory during a scan, plus the chunk table. -/
structure ScanState where
  current_block : Nat
  chunk : Option OpenChunk
  old_clock : Option Nat
  chunks : List ChunkRec
  deriving Repr, DecidableEq

/-- Translation of ChunkFactory.split: close the open chunk with
block_size = current_block - 1 - block_start and clock_end = old_clock,
persist it when block_size reaches min_chunk_size, and clear it.  Reading
block_start from a Chunk whose fields were never assigned (None) makes the
subtraction raise a TypeError in Python. -/
def split (cfg : ScanCfg) (st : ScanState) : Except Err ScanState :=
  match st.chunk with
  | none => .ok st
  | some c =>
    match c.block_start with
    | none => .error .typeError
    | some b =>
      let size : Int := (st.current_block : Int) - 1 - (b : Int)
      let chunks :=
        if cfg.min_chunk_size ≤ size then
          st.chunks ++ [⟨b, size, c.clock_start, st.old_clock⟩]
        else st.chunks
      .ok { st with chunk := none, chunks := chunks }

/-- One iteration of the scan loop body of ChunkFactory.run for the block at
st.current_block, given that block's parse outcome. -/
def step (cfg : ScanCfg) (st : ScanState) (clock : Option Nat) : Except Err ScanState :=
  match clock with
  | none => split cfg st
  | some c =>
    match st.chunk with
    | none =>
      .ok { st with chunk := some ⟨some st.current_block, some c⟩, old_clock := some c }
    | some _ =>
      match st.old_clock with
      | none => .error .typeError
      | some oc =>
        let delta : Int := (c : Int) - (oc : Int)
        if delta < 0 ∨ cfg.max_gap < delta then
          match split cfg st with
          | .error e => .error e
          | .ok st2 => .ok { st2 with old_clock := some c }
        else
          .ok { st with old_clock := some c }

/-- Remaining iterations of the scan loop, recursing on their count. -/
def scanLoopAux (cfg : ScanCfg) (blocks : List (Option Nat)) :
    ScanState → Nat → Nat → Except Err ScanState
  | st, _, 0 => .ok st
  | st, i, rem + 1 =>
    match step cfg { st with current_block := i } (blocks.getD i none) with
    | .error e => .error e
    | .ok st2 => scanLoopAux cfg blocks st2 (i + 1) rem

/-- The scan loop of ChunkFactory.run: iterate the body for block indices i
up to n (exclusive); the loop variable current_block keeps its last value. -/
def scanLoop (cfg : ScanCfg) (blocks : List (Option Nat)) (st : ScanState)
    (i n : Nat) : Except Err ScanState :=
  scanLoopAux cfg blocks st i (n - i)

/-- The scan_checkpoint record (state table rows), all columns nullable. -/
structure SavedState where
  current_block : Option Nat
  block_start : Option Nat
  clock_start : Option Nat
  old_clock : Option Nat
  deriving Repr, DecidableEq

/-- The empty state table (fresh database: every query returns None). -/
def SavedState.empty : SavedState := ⟨none, none, none, none⟩

/-- Translation of ChunkFactory.save_state: persist current_block, the open
chunk's block_start/clock_start (None when no chunk is open) and old_clock. -/
def save_state (st : ScanState) : SavedState :=
  match st.chunk with
  | none => ⟨some st.current_block, none, none, st.old_clock⟩
  | some c => ⟨some st.current_block, c.block_start, c.clock_start, st.old_clock⟩

/-- Tail of ChunkFactory.run after state loading: loop over the remaining
blocks, then close any still-open chunk and return the chunk table. -/
def runFrom (cfg : ScanCfg) (blocks : List (Option Nat)) (st0 : ScanState) :
    Except Err (List ChunkRec) :=
  match scanLoop cfg blocks st0 st0.current_block blocks.length with
  | .error e => .error e
  | .ok st =>
    match split cfg st with
    | .error e => .error e
    | .ok st2 => .ok st2.chunks

/-- Translation of ChunkFactory.run including load_state: re-create the open
chunk when the checkpoint recorded one — load_state instantiates Chunk() but
assigns the loaded block_start/clock_start to factory attributes instead of
the Chunk object, so the re-opened chunk's fields stay None.  If no
current_block was recorded and the chunk table is non-empty, abort with
CreateError before touching anything. -/
def run (cfg : ScanCfg) (blocks : List (Option Nat)) (saved : SavedState)
    (table : List ChunkRec) : Except Err (List ChunkRec) :=
  let chunk : Option OpenChunk :=
    if saved.block_start ≠ none ∧ saved.clock_start ≠ none then
      some ⟨none, none⟩
    else none
  match saved.current_block with
  | none =>
    if table.length ≠ 0 then .error .createError
    else runFrom cfg blocks ⟨0, chunk, saved.old_clock, table⟩
  | some cb => runFrom cfg blocks ⟨cb, chunk, saved.old_clock, table⟩

/-- Chunk table produced by a scan counting aborted runs as no change (an
exception propagates before the final commit, leaving the table as it was). -/
def runTable (cfg : ScanCfg) (blocks : List (Option Nat)) (saved : SavedState)
    (table : List ChunkRec) : List ChunkRec :=
  match run cfg blocks saved table with
  | .ok t => t
  | .error _ => table

/-- State of a fresh scan interrupted right after the check_timer checkpoint
at the start of iteration i: the saved checkpoint record and the chunk table
committed so far. -/
def partial_scan (cfg : ScanCfg) (blocks : List (Option Nat)) (i : Nat) :
    Except Err (SavedState × List ChunkRec) :=
  match scanLoop cfg blocks ⟨0, none, none, []⟩ 0 i with
  | .error e => .error e
  | .ok st => .ok (save_state { st with current_block := i }, st.chunks)

/-- Characterization of a successful split: the open chunk is cleared,
current_block and old_clock are untouched, and the chunk table either stays
or grows by the closed record, persisted only when it meets min_chunk_size. -/
theorem split_ok (cfg : ScanCfg) (s s' : ScanState) (h : split cfg s = .ok s') :
    s'.chunk = none ∧ s'.current_block = s.current_block ∧
    s'.old_clock = s.old_clock ∧
    (s'.chunks = s.chunks ∨
      ∃ b oc, s.chunk = some oc ∧ oc.block_start = some b ∧
        cfg.min_chunk_size ≤ (s.current_block : Int) - 1 - (b : Int) ∧
        s'.chunks = s.chunks ++
          [⟨b, (s.current_block : Int) - 1 - (b : Int), oc.clock_start, s.old_clock⟩]) := by
  match hc : s.chunk with
  | none =>
    simp only [split, hc] at h
    cases h
    exact ⟨hc, rfl, rfl, Or.inl rfl⟩
  | some c =>
    simp only [split, hc] at h
    match hb : c.block_start with
    | none => simp only [hb] at h; cases h
    | some b =>
      simp only [hb] at h
      by_cases hsize : cfg.min_chunk_size ≤ (s.current_block : Int) - 1 - (b : Int)
      · rw [if_pos hsize] at h
        cases h
        exact ⟨rfl, rfl, rfl, Or.inr ⟨b, c, rfl, hb, hsize, rfl⟩⟩
      · rw [if_neg hsize] at h
        cases h
        exact ⟨rfl, rfl, rfl, Or.inl rfl⟩

/-- C1 counterexample: on the block stream [10, 11, 12, no-match] with
min_chunk_size 1 the scanner persists the chunk (block_start 0, block_size 2,
clock_end 12), but the header clock of the block at index
block_start + block_size - 1 = 1 is 11, not 12. -/
theorem clock_end_not_at_size_minus_one :
    run ⟨1, 90000⟩ [some 10, some 11, some 12, none] .empty [] =
      .ok [⟨0, 2, some 10, some 12⟩] ∧
    List.getD [some 10, some 11, some 12, none] (0 + 2 - 1) none = some 11 ∧
    (some 11 : Option Nat) ≠ some 12 := by
  refine ⟨by rfl, by rfl, by decide⟩

/-- C3: the same stream scanned without interruption yields one chunk, but
interrupting a fresh scan at the checkpoint taken at the start of iteration 2
(inside the open chunk) and resuming from the committed checkpoint fails with
a TypeError: load_state re-creates the open Chunk with unset fields, so
closing it subtracts None.  The resumed run does not reproduce the chunk set. -/
theorem resume_differs_from_uninterrupted :
    run ⟨1, 90000⟩ [some 10, some 11, some 12, none] .empty [] =
      .ok [⟨0, 2, some 10, some 12⟩] ∧
    partial_scan ⟨1, 90000⟩ [some 10, some 11, some 12, none] 2 =
      .ok (⟨some 2, some 0, some 10, some 11⟩, []) ∧
    run ⟨1, 90000⟩ [some 10, some 11, some 12, none]
        ⟨some 2, some 0, some 10, some 11⟩ [] = .error .typeError ∧
    (Except.error Err.typeError : Except Err (List ChunkRec)) ≠
      .ok [⟨0, 2, some 10, some 12⟩] := by
  refine ⟨by rfl, by rfl, by rfl, by simp⟩

/-- C4 counterexample: a matching block with an out-of-gap clock closes the
open chunk but does not open a new one at current_block — the post-state has
no open chunk, contrary to a new chunk (block_start 1, clock_start 1000000). -/
theorem gap_match_opens_no_chunk :
    step ⟨1, 90000⟩ ⟨1, some ⟨some 0, some 0⟩, some 0, []⟩ (some 1000000) =
      .ok ⟨1, none, some 1000000, []⟩ ∧
    (none : Option OpenChunk) ≠ some ⟨some 1, some 1000000⟩ := by
  refine ⟨by rfl, by decide⟩

/-- C4 amended: on a match with clock c while a chunk is open and
delta = c - old_clock out of range, the scanner closes the open chunk exactly
as in the no-match rule and then merely records old_clock = c; no chunk is
open afterwards (a new one opens only at a later matching block).  In every
matching case that succeeds, old_clock becomes c. -/
theorem step_gap_closes_without_reopen (cfg : ScanCfg) (st stS : ScanState)
    (c oldc : Nat) (oc : OpenChunk) (hchunk : st.chunk = some oc)
    (hold : st.old_clock = some oldc)
    (hgap : (c : Int) - (oldc : Int) < 0 ∨ cfg.max_gap < (c : Int) - (oldc : Int))
    (hsplit : split cfg st = .ok stS) :
    step cfg st (some c) = .ok { stS with old_clock := some c } ∧
    stS.chunk = none ∧
    (∀ st' st2 : ScanState, step cfg st' (some c) = .ok st2 →
      st2.old_clock = some c) := by
  refine ⟨?_, (split_ok cfg st stS hsplit).1, ?_⟩
  · simp only [step, hchunk, hold]
    rw [if_pos hgap, hsplit]
  · intro st' st2 hstep
    match hc : st'.chunk with
    | none =>
      simp only [step, hc] at hstep
      cases hstep
      rfl
    | some c' =>
      simp only [step, hc] at hstep
      match ho : st'.old_clock with
      | none => simp only [ho] at hstep; cases hstep
      | some oc' =>
        simp only [ho] at hstep
        by_cases hg : (c : Int) - (oc' : Int) < 0 ∨ cfg.max_gap < (c : Int) - (oc' : Int)
        · rw [if_pos hg] at hstep
          match hs : split cfg st' with
          | .error e => simp only [hs] at hstep; cases hstep
          | .ok stS' => simp only [hs] at hstep; cases hstep; rfl
        · rw [if_neg hg] at hstep
          cases hstep
          rfl

/-- Witness for the gap-closing theorem at a concrete state and clock. -/
theorem step_gap_closes_without_reopen_witness :
    step ⟨1, 90000⟩ ⟨1, some ⟨some 0, some 0⟩, some 0, []⟩ (some 1000000) =
      .ok ⟨1, none, some 1000000, []⟩ :=
  (step_gap_closes_without_reopen ⟨1, 90000⟩ ⟨1, some ⟨some 0, some 0⟩, some 0, []⟩
    ⟨1, none, some 0, []⟩ 1000000 0 ⟨some 0, some 0⟩ rfl rfl
    (Or.inr (by decide)) rfl).1

/-- C7: at scan startup, when no checkpoint exists (current_block absent) and
the chunk table already holds at least one record, the scanner aborts with
CreateError and the persisted chunk table is left unchanged. -/
theorem run_refuses_rescan (cfg : ScanCfg) (blocks : List (Option Nat))
    (saved : SavedState) (table : List ChunkRec)
    (hcb : saved.current_block = none) (htable : table ≠ []) :
    run cfg blocks saved table = .error .createError ∧
    runTable cfg blocks saved table = table := by
  have hlen : table.length ≠ 0 := by
    simpa [List.length_eq_zero] using htable
  have hr : run cfg blocks saved table = .error .createError := by
    simp only [run, hcb]
    exact if_pos hlen
  refine ⟨hr, ?_⟩
  simp only [runTable, hr]

/-- Witness for the re-scan refusal at a concrete store state. -/
theorem run_refuses_rescan_witness :
    run ⟨1, 90000⟩ [some 10] SavedState.empty [⟨0, 2, some 10, some 12⟩] =
      .error .createError ∧
    runTable ⟨1, 90000⟩ [some 10] SavedState.empty [⟨0, 2, some 10, some 12⟩] =
      [⟨0, 2, some 10, some 12⟩] :=
  run_refuses_rescan ⟨1, 90000⟩ [some 10] SavedState.empty
    [⟨0, 2, some 10, some 12⟩] rfl (by decide)

/-- Splitting preserves the min-size property of the chunk table. -/
theorem split_min (cfg : ScanCfg) (s s' : ScanState) (h : split cfg s = .ok s')
    (hP : ∀ c ∈ s.chunks, cfg.min_chunk_size ≤ c.block_size) :
    ∀ c ∈ s'.chunks, cfg.min_chunk_size ≤ c.block_size := by
  obtain ⟨-, -, -, hch⟩ := split_ok cfg s s' h
  rcases hch with hch | ⟨b, oc, -, -, hsize, hch⟩
  · rw [hch]; exact hP
  · rw [hch]
    intro c hcmem
    rcases List.mem_append.mp hcmem with hm | hm
    · exact hP c hm
    · rw [List.mem_singleton.mp hm]
      exact hsize

/-- One scan-loop body preserves the min-size property of the chunk table. -/
theorem step_min (cfg : ScanCfg) (s s' : ScanState) (clock : Option Nat)
    (h : step cfg s clock = .ok s')
    (hP : ∀ c ∈ s.chunks, cfg.min_chunk_size ≤ c.block_size) :
    ∀ c ∈ s'.chunks, cfg.min_chunk_size ≤ c.block_size := by
  match clock with
  | none =>
    simp only [step] at h
    exact split_min cfg s s' h hP
  | some c =>
    simp only [step] at h
    match hc : s.chunk with
    | none =>
      simp only [hc] at h
      cases h
      exact hP
    | some oc =>
      simp only [hc] at h
      match ho : s.old_clock with
      | none => simp only [ho] at h; cases h
      | some oldc =>
        simp only [ho] at h
        by_cases hg : (c : Int) - (oldc : Int) < 0 ∨ cfg.max_gap < (c : Int) - (oldc : Int)
        · rw [if_pos hg] at h
          match hs : split cfg s with
          | .error e => simp only [hs] at h; cases h
          | .ok s2 =>
            simp only [hs] at h
            cases h
            exact split_min cfg s s2 hs hP
        · rw [if_neg hg] at h
          cases h
          exact hP

/-- The scan loop preserves the min-size property of the chunk table. -/
theorem scanLoopAux_min (cfg : ScanCfg) (blocks : List (Option Nat)) :
    ∀ rem i st stF, scanLoopAux cfg blocks st i rem = .ok stF →
      (∀ c ∈ st.chunks, cfg.min_chunk_size ≤ c.block_size) →
      ∀ c ∈ stF.chunks, cfg.min_chunk_size ≤ c.block_size := by
  intro rem
  induction rem with
  | zero =>
    intro i st stF h hP
    simp only [scanLoopAux] at h
    cases h
    exact hP
  | succ rem ih =>
    intro i st stF h hP
    simp only [scanLoopAux] at h
    match hs : step cfg { st with current_block := i } (blocks.getD i none) with
    | .error e => simp only [hs] at h; cases h
    | .ok st2 =>
      simp only [hs] at h
      exact ih (i + 1) st2 stF h (step_min cfg _ st2 _ hs hP)

/-- The loop-plus-final-split tail preserves the min-size property. -/
theorem runFrom_min (cfg : ScanCfg) (blocks : List (Option Nat))
    (st0 : ScanState) (res : List ChunkRec) (h : runFrom cfg blocks st0 = .ok res)
    (hP : ∀ c ∈ st0.chunks, cfg.min_chunk_size ≤ c.block_size) :
    ∀ c ∈ res, cfg.min_chunk_size ≤ c.block_size := by
  simp only [runFrom, scanLoop] at h
  match hl : scanLoopAux cfg blocks st0 st0.current_block
      (blocks.length - st0.current_block) with
  | .error e => simp only [hl] at h; cases h
  | .ok st =>
    simp only [hl] at h
    match hs : split cfg st with
    | .error e => simp only [hs] at h; cases h
    | .ok st2 =>
      simp only [hs] at h
      cases h
      exact split_min cfg st st2 hs (scanLoopAux_min cfg blocks _ _ st0 st hl hP)

/-- C9: every chunk record in the table after a scan has
block_size at least min_chunk_size; records below the threshold are
discarded by split and never persisted, so a table that satisfied the bound
before the scan still satisfies it afterwards. -/
theorem run_chunks_min (cfg : ScanCfg) (blocks : List (Option Nat))
    (saved : SavedState) (table res : List ChunkRec)
    (htable : ∀ c ∈ table, cfg.min_chunk_size ≤ c.block_size)
    (hrun : run cfg blocks saved table = .ok res) :
    ∀ c ∈ res, cfg.min_chunk_size ≤ c.block_size := by
  simp only [run] at hrun
  match hcb : saved.current_block with
  | none =>
    simp only [hcb] at hrun
    by_cases hlen : table.length ≠ 0
    · rw [if_pos hlen] at hrun; cases hrun
    · rw [if_neg hlen] at hrun
      exact runFrom_min cfg blocks _ res hrun htable
  | some cb =>
    simp only [hcb] at hrun
    exact runFrom_min cfg blocks _ res hrun htable

/-- Witness for the min-size invariant on a concrete scan. -/
theorem run_chunks_min_witness :
    (∀ c ∈ ([] : List ChunkRec), (1 : Int) ≤ c.block_size) ∧
    ∀ c ∈ [(⟨0, 2, some 10, some 12⟩ : ChunkRec)],
      (⟨1, 90000⟩ : ScanCfg).min_chunk_size ≤ c.block_size :=
  ⟨by simp, run_chunks_min ⟨1, 90000⟩ [some 10, some 11, some 12, none]
    SavedState.empty [] [⟨0, 2, some 10, some 12⟩] (by simp) rfl⟩

/-- Scan invariant: whenever a chunk is open, its block_start is set and at
most current_block, the block at current_block matched, and old_clock is that
block's clock. -/
def Inv (blocks : List (Option Nat)) (st : ScanState) : Prop :=
  ∀ oc, st.chunk = some oc →
    ∃ b, oc.block_start = some b ∧ b ≤ st.current_block ∧
      blocks.getD st.current_block none = st.old_clock ∧ st.old_clock ≠ none

/-- A persisted record's clock_end is the header clock of the stream block at
index block_start + block_size (chunks closed inside the loop) or at
block_start + block_size + 1 (the chunk closed after the loop). -/
def GoodChunk (blocks : List (Option Nat)) (c : ChunkRec) : Prop :=
  c.clock_end ≠ none ∧
  (c.clock_end = blocks.getD (c.block_start + c.block_size.toNat) none ∨
   c.clock_end = blocks.getD (c.block_start + c.block_size.toNat + 1) none)

/-- A split performed inside the loop body (where current_block is one past
the block old_clock came from) produces only good records. -/
theorem split_good_loop (cfg : ScanCfg) (blocks : List (Option Nat))
    (s s' : ScanState) (hmin : 0 ≤ cfg.min_chunk_size)
    (h : split cfg s = .ok s')
    (hInvL : ∀ oc, s.chunk = some oc → ∃ b, oc.block_start = some b ∧
      b + 1 ≤ s.current_block ∧
      blocks.getD (s.current_block - 1) none = s.old_clock ∧ s.old_clock ≠ none)
    (hP : ∀ c ∈ s.chunks, GoodChunk blocks c) :
    ∀ c ∈ s'.chunks, GoodChunk blocks c := by
  obtain ⟨-, -, -, hch⟩ := split_ok cfg s s' h
  rcases hch with hch | ⟨b, oc, hcs, hbs, hsize, hch⟩
  · rw [hch]; exact hP
  · rw [hch]
    intro c hcmem
    rcases List.mem_append.mp hcmem with hm | hm
    · exact hP c hm
    · rw [List.mem_singleton.mp hm]
      obtain ⟨b', hb', hle, hgd, hne⟩ := hInvL oc hcs
      have hbb : b' = b := by rw [hbs] at hb'; exact (Option.some_injective _ hb').symm
      rw [hbb] at hle
      have hidx : b + ((s.current_block : Int) - 1 - (b : Int)).toNat =
          s.current_block - 1 := by omega
      refine ⟨hne, Or.inl ?_⟩
      show s.old_clock = blocks.getD (b + ((s.current_block : Int) - 1 - (b : Int)).toNat) none
      rw [hidx, hgd]

/-- The final split (performed on the loop's exit state) produces only good
records, with the closing block one further to the right. -/
theorem split_good_final (cfg : ScanCfg) (blocks : List (Option Nat))
    (s s' : ScanState) (hmin : 0 ≤ cfg.min_chunk_size)
    (h : split cfg s = .ok s') (hInv : Inv blocks s)
    (hP : ∀ c ∈ s.chunks, GoodChunk blocks c) :
    ∀ c ∈ s'.chunks, GoodChunk blocks c := by
  obtain ⟨-, -, -, hch⟩ := split_ok cfg s s' h
  rcases hch with hch | ⟨b, oc, hcs, hbs, hsize, hch⟩
  · rw [hch]; exact hP
  · rw [hch]
    intro c hcmem
    rcases List.mem_append.mp hcmem with hm | hm
    · exact hP c hm
    · rw [List.mem_singleton.mp hm]
      obtain ⟨b', hb', hle, hgd, hne⟩ := hInv oc hcs
      have hbb : b' = b := by rw [hbs] at hb'; exact (Option.some_injective _ hb').symm
      rw [hbb] at hle
      have hpos : 0 ≤ (s.current_block : Int) - 1 - (b : Int) := le_trans hmin hsize
      have hidx : b + ((s.current_block : Int) - 1 - (b : Int)).toNat + 1 =
          s.current_block := by omega
      refine ⟨hne, Or.inr ?_⟩
      show s.old_clock = blocks.getD (b + ((s.current_block : Int) - 1 - (b : Int)).toNat + 1) none
      rw [hidx, hgd]

/-- One scan-loop body at index i preserves the invariant and goodness, and
leaves current_block at i. -/
theorem step_good (cfg : ScanCfg) (blocks : List (Option Nat)) (i : Nat)
    (hmin : 0 ≤ cfg.min_chunk_size) (st st2 : ScanState)
    (hInv : Inv blocks st) (hP : ∀ c ∈ st.chunks, GoodChunk blocks c)
    (hCond : st.chunk ≠ none → st.current_block + 1 = i)
    (hs : step cfg { st with current_block := i } (blocks.getD i none) = .ok st2) :
    Inv blocks st2 ∧ (∀ c ∈ st2.chunks, GoodChunk blocks c) ∧
    st2.current_block = i := by
  have hInvL : ∀ oc, ({ st with current_block := i } : ScanState).chunk = some oc →
      ∃ b, oc.block_start = some b ∧
        b + 1 ≤ ({ st with current_block := i } : ScanState).current_block ∧
        blocks.getD (({ st with current_block := i } : ScanState).current_block - 1) none =
          ({ st with current_block := i } : ScanState).old_clock ∧
        ({ st with current_block := i } : ScanState).old_clock ≠ none := by
    intro oc hoc
    have hoc' : st.chunk = some oc := hoc
    obtain ⟨b, hb, hle, hgd, hne⟩ := hInv oc hoc'
    have hi : st.current_block + 1 = i :=
      hCond (by rw [hoc']; exact fun hcon => Option.noConfusion hcon)
    refine ⟨b, hb, show b + 1 ≤ i by omega,
      show blocks.getD (i - 1) none = st.old_clock from ?_, hne⟩
    have hdec : i - 1 = st.current_block := by omega
    rw [hdec]
    exact hgd
  cases hbl : blocks.getD i none with
  | none =>
    rw [hbl] at hs
    simp only [step] at hs
    obtain ⟨hchn, hcur, -, -⟩ := split_ok cfg _ st2 hs
    refine ⟨?_, split_good_loop cfg blocks _ st2 hmin hs hInvL hP, hcur⟩
    intro oc hoc
    rw [hchn] at hoc
    cases hoc
  | some c =>
    rw [hbl] at hs
    simp only [step] at hs
    cases hchunk : st.chunk with
    | none =>
      simp only [hchunk] at hs
      cases hs
      refine ⟨?_, hP, rfl⟩
      intro oc hoc
      cases hoc
      exact ⟨i, rfl, le_refl i, show blocks.getD i none = some c from hbl,
        show (some c : Option Nat) ≠ none by simp⟩
    | some oc0 =>
      simp only [hchunk] at hs
      obtain ⟨b, hb, hle, hgd, hne⟩ := hInv oc0 hchunk
      cases hold : st.old_clock with
      | none => exact absurd hold hne
      | some oldc =>
        simp only [hold] at hs
        have hi : st.current_block + 1 = i :=
          hCond (by rw [hchunk]; exact fun hcon => Option.noConfusion hcon)
        have hInvL1 : ∀ oc, (⟨i, some oc0, some oldc, st.chunks⟩ : ScanState).chunk = some oc →
            ∃ b, oc.block_start = some b ∧
              b + 1 ≤ (⟨i, some oc0, some oldc, st.chunks⟩ : ScanState).current_block ∧
              blocks.getD ((⟨i, some oc0, some oldc, st.chunks⟩ : ScanState).current_block - 1) none =
                (⟨i, some oc0, some oldc, st.chunks⟩ : ScanState).old_clock ∧
              (⟨i, some oc0, some oldc, st.chunks⟩ : ScanState).old_clock ≠ none := by
          intro oc hoc
          have hoc0 : oc0 = oc := Option.some_injective _ hoc
          refine ⟨b, by rw [← hoc0]; exact hb, show b + 1 ≤ i by omega,
            show blocks.getD (i - 1) none = some oldc from ?_,
            show (some oldc : Option Nat) ≠ none by simp⟩
          have hdec : i - 1 = st.current_block := by omega
          rw [hdec, hgd, hold]
        by_cases hg : (c : Int) - (oldc : Int) < 0 ∨ cfg.max_gap < (c : Int) - (oldc : Int)
        · rw [if_pos hg] at hs
          cases hsp : split cfg (⟨i, some oc0, some oldc, st.chunks⟩ : ScanState) with
          | error e => simp only [hsp] at hs; cases hs
          | ok s3 =>
            simp only [hsp] at hs
            cases hs
            obtain ⟨hchn, hcur, -, -⟩ := split_ok cfg _ s3 hsp
            refine ⟨?_, split_good_loop cfg blocks _ s3 hmin hsp hInvL1 hP, hcur⟩
            intro oc hoc
            rw [show ({ s3 with old_clock := some c } : ScanState).chunk = s3.chunk
              from rfl, hchn] at hoc
            cases hoc
        · rw [if_neg hg] at hs
          cases hs
          refine ⟨?_, hP, rfl⟩
          intro oc hoc
          cases hoc
          exact ⟨b, hb, show b ≤ i by omega, show blocks.getD i none = some c from hbl,
            show (some c : Option Nat) ≠ none by simp⟩

/-- The scan loop preserves the invariant and goodness of the table. -/
theorem scanLoopAux_good (cfg : ScanCfg) (blocks : List (Option Nat))
    (hmin : 0 ≤ cfg.min_chunk_size) :
    ∀ rem i st stF, scanLoopAux cfg blocks st i rem = .ok stF →
      Inv blocks st → (∀ c ∈ st.chunks, GoodChunk blocks c) →
      (st.chunk ≠ none → st.current_block + 1 = i) →
      Inv blocks stF ∧ ∀ c ∈ stF.chunks, GoodChunk blocks c := by
  intro rem
  induction rem with
  | zero =>
    intro i st stF h hInv hP hCond
    simp only [scanLoopAux] at h
    cases h
    exact ⟨hInv, hP⟩
  | succ rem ih =>
    intro i st stF h hInv hP hCond
    simp only [scanLoopAux] at h
    match hs : step cfg { st with current_block := i } (blocks.getD i none) with
    | .error e => simp only [hs] at h; cases h
    | .ok st2 =>
      simp only [hs] at h
      obtain ⟨hInv2, hP2, hcur2⟩ := step_good cfg blocks i hmin st st2 hInv hP hCond hs
      exact ih (i + 1) st2 stF h hInv2 hP2 (fun _ => by omega)

/-- C1 amended: after a fresh full scan, every persisted chunk's clock_end is
the header clock value of a real, matching stream block, namely the one at
index block_start + block_size for chunks closed during the loop, or at
block_start + block_size + 1 for a chunk closed at the end of the stream —
never the block at block_start + block_size - 1, because the stored
block_size = current_block - 1 - block_start undercounts the matched run. -/
theorem run_clock_end_last (cfg : ScanCfg) (blocks : List (Option Nat))
    (hmin : 0 ≤ cfg.min_chunk_size) (res : List ChunkRec)
    (hrun : run cfg blocks SavedState.empty [] = .ok res) :
    ∀ c ∈ res, c.clock_end ≠ none ∧
      (c.clock_end = blocks.getD (c.block_start + c.block_size.toNat) none ∨
       c.clock_end = blocks.getD (c.block_start + c.block_size.toNat + 1) none) := by
  have hrw : run cfg blocks SavedState.empty [] = runFrom cfg blocks ⟨0, none, none, []⟩ := rfl
  rw [hrw] at hrun
  simp only [runFrom, scanLoop, Nat.sub_zero] at hrun
  match hl : scanLoopAux cfg blocks ⟨0, none, none, []⟩ 0 blocks.length with
  | .error e => simp only [hl] at hrun; cases hrun
  | .ok st =>
    simp only [hl] at hrun
    match hsp : split cfg st with
    | .error e => simp only [hsp] at hrun; cases hrun
    | .ok st2 =>
      simp only [hsp] at hrun
      cases hrun
      have h0 : Inv blocks ⟨0, none, none, []⟩ := by
        intro oc hoc; cases hoc
      obtain ⟨hInvF, hPF⟩ := scanLoopAux_good cfg blocks hmin _ 0 _ st hl h0
        (by intro c hc; cases hc) (fun hcon => absurd rfl hcon)
      exact split_good_final cfg blocks st st2 hmin hsp hInvF hPF

/-- Witness for the clock_end characterization on a concrete scan. -/
theorem run_clock_end_last_witness :
    (0 : Int) ≤ (⟨1, 90000⟩ : ScanCfg).min_chunk_size ∧
    ∀ c ∈ [(⟨0, 2, some 10, some 12⟩ : ChunkRec)], c.clock_end ≠ none ∧
      (c.clock_end = List.getD [some 10, some 11, some 12, none]
          (c.block_start + c.block_size.toNat) none ∨
       c.clock_end = List.getD [some 10, some 11, some 12, none]
          (c.block_start + c.block_size.toNat + 1) none) :=
  ⟨by norm_num, run_clock_end_last ⟨1, 90000⟩ [some 10, some 11, some 12, none]
    (by norm_num) [⟨0, 2, some 10, some 12⟩] rfl⟩

/-! ## VirtualBlockStream (FileReader) -/

/-- State of a FileReader: the input files' contents, the index of the
currently open file (None when closed), and the open file's read position. -/
structure FRState where
  parts : List (List Nat)
  current_file : Option Nat
  pos : Nat
  deriving Repr, DecidableEq

/-- Translation of FileReader.read: read from the open file; on a shortfall,
if the file is at end-of-file, move to the next file and read the remainder
(on the last file, close — a further read on a closed reader returns the
empty string, inlined here); a shortfall away from end-of-file raises
FileReaderError.  A read on a closed reader returns the empty string. -/
def read (s : FRState) (size : Nat) : Except Err (List Nat × FRState) :=
  match hcf : s.current_file with
  | none => .ok ([], s)
  | some i =>
    let file := s.parts.getD i []
    let buf := (file.drop s.pos).take size
    let pos1 := s.pos + buf.length
    let delta := size - buf.length
    if delta = 0 then .ok (buf, { s with pos := pos1 })
    else
      if pos1 = file.length then
        if h : i + 1 < s.parts.length then
          match read { s with current_file := some (i + 1), pos := 0 } delta with
          | .error e => .error e
          | .ok (buf2, s2) => .ok (buf ++ buf2, s2)
        else
          .ok (buf, { s with current_file := none, pos := 0 })
      else .error .fileReaderError
termination_by s.parts.length - (s.current_file.getD s.parts.length)
decreasing_by
  simp only [hcf, Option.getD_some]
  omega

/-- Total number of bytes in a list of file contents. -/
def partsLen (l : List (List Nat)) : Nat := (l.map List.length).sum

/-- Bytes remaining in the stream from the reader's current position. -/
def avail (s : FRState) : Nat :=
  match s.current_file with
  | none => 0
  | some i => ((s.parts.getD i []).length - s.pos) + partsLen (s.parts.drop (i + 1))

/-- Well-formed reader: the open file index is in range and the position does
not exceed that file's length. -/
def FRWF (s : FRState) : Prop :=
  ∀ i, s.current_file = some i →
    i < s.parts.length ∧ s.pos ≤ (s.parts.getD i []).length

/-- Byte count of the tail files: peeling off file i. -/
theorem partsLen_drop (l : List (List Nat)) (i : Nat) (hi : i < l.length) :
    partsLen (l.drop i) = (l.getD i []).length + partsLen (l.drop (i + 1)) := by
  rw [List.drop_eq_getElem_cons hi, List.getD_eq_getElem l [] hi]
  simp only [partsLen, List.map_cons, List.sum_cons]

/-- C2 amended: on a well-formed reader, read never raises; it returns
exactly n bytes when n bytes remain from the current position (crossing file
boundaries transparently), and otherwise silently returns only the remaining
bytes — the returned buffer always holds min n (avail s) bytes, and the
FileReaderError branch is unreachable because a real file read falls short
only at end-of-file. -/
theorem read_returns_min (s : FRState) (n : Nat) (hwf : FRWF s) :
    ∃ buf s2, read s n = .ok (buf, s2) ∧ buf.length = min n (avail s) := by
  revert hwf
  induction s, n using read.induct with
  | case1 s n hcf =>
    intro hwf
    refine ⟨[], s, ?_, ?_⟩
    · rw [read.eq_def, hcf]
    · simp [avail, hcf]
  | case2 s n i hcf file buf delta hdelta =>
    intro hwf
    unfold_let delta buf file at *
    rw [read.eq_def, hcf]
    simp only []
    rw [if_pos hdelta]
    refine ⟨_, _, rfl, ?_⟩
    obtain ⟨hilt, hpos⟩ := hwf i hcf
    simp only [List.length_take, List.length_drop] at hdelta ⊢
    simp only [avail, hcf]
    omega
  | case3 s n i hcf file buf pos1 delta hdelta hpos hlt e herr ih =>
    intro hwf
    unfold_let delta pos1 buf file at *
    have hwf2 : FRWF ⟨s.parts, some (i + 1), 0⟩ := by
      intro j hj
      cases hj
      exact ⟨hlt, Nat.zero_le _⟩
    obtain ⟨buf2, s2, hread2, hlen2⟩ := ih hwf2
    rw [hread2] at herr
    cases herr
  | case4 s n i hcf file buf pos1 delta hdelta hpos hlt buf2 s2 hok ih =>
    intro hwf
    unfold_let delta pos1 buf file at *
    obtain ⟨hilt, hposle⟩ := hwf i hcf
    have hwf2 : FRWF ⟨s.parts, some (i + 1), 0⟩ := by
      intro j hj
      cases hj
      exact ⟨hlt, Nat.zero_le _⟩
    obtain ⟨buf2w, s2w, hread2, hlen2⟩ := ih hwf2
    rw [read.eq_def, hcf]
    simp only []
    rw [if_neg hdelta, if_pos hpos, dif_pos hlt, hread2]
    refine ⟨_, _, rfl, ?_⟩
    have havail2 : avail ⟨s.parts, some (i + 1), 0⟩ =
        partsLen (s.parts.drop (i + 1)) := by
      simp only [avail]
      rw [partsLen_drop _ _ hlt]
      omega
    rw [havail2] at hlen2
    simp only [List.length_append, List.length_take, List.length_drop] at hpos hdelta hlen2 ⊢
    simp only [avail, hcf]
    omega
  | case5 s n i hcf file buf pos1 delta hdelta hpos hge =>
    intro hwf
    unfold_let delta pos1 buf file at *
    rw [read.eq_def, hcf]
    simp only []
    rw [if_neg hdelta, if_pos hpos, dif_neg hge]
    refine ⟨_, _, rfl, ?_⟩
    obtain ⟨hilt, hposle⟩ := hwf i hcf
    have hdrop : s.parts.drop (i + 1) = [] :=
      List.drop_eq_nil_of_le (by omega)
    simp only [avail, hcf, hdrop, partsLen, List.map_nil, List.sum_nil]
    simp only [List.length_take, List.length_drop]
    omega
  | case6 s n i hcf file buf pos1 delta hdelta hpos =>
    intro hwf
    unfold_let delta pos1 buf file at *
    exfalso
    obtain ⟨hilt, hposle⟩ := hwf i hcf
    simp only [List.length_take, List.length_drop] at hdelta hpos
    omega

/-- C2 counterexample: reading 2 bytes from a stream holding a single
1-byte file returns 1 byte with no error, instead of failing with a
size-mismatch error at end-of-stream. -/
theorem read_short_at_eof :
    read ⟨[[7]], some 0, 0⟩ 2 = .ok ([7], ⟨[[7]], none, 0⟩) ∧
    ([7] : List Nat).length ≠ 2 := by
  refine ⟨?_, by decide⟩
  rw [read.eq_def]
  norm_num

/-- Witness for read_returns_min on a concrete two-file reader. -/
theorem read_returns_min_witness :
    ∃ buf s2, read ⟨[[5, 6], [7]], some 0, 1⟩ 2 = .ok (buf, s2) ∧
      buf.length = min 2 (avail ⟨[[5, 6], [7]], some 0, 1⟩) :=
  read_returns_min ⟨[[5, 6], [7]], some 0, 1⟩ 2
    (fun i hj => by cases hj; exact ⟨by decide, by decide⟩)

/-! ## ChunkLinker (Main.sort.find_next_part) -/

/-- Chunk row as the linker sees it: id and the two clock columns. -/
structure SChunk where
  id : Nat
  clock_start : Int
  clock_end : Int
  deriving Repr, DecidableEq

/-- Translation of SqlManager chunk lookup by id. -/
def query_chunk_by_id (store : List SChunk) (i : Nat) : Option SChunk :=
  store.find? (fun c => c.id == i)

/-- Python's membership test of an int chunk id in new_chunk_ids, a list of
(id, concat) tuples: an int never compares equal to a tuple, so the test is
false for every element (translated faithfully from the source slip). -/
def idInPairs (n : Nat) (l : List (Nat × Bool)) : Bool :=
  l.any (fun _ => decide (n ≠ n))

/-- Translation of the candidate loop of Main.sort.find_next_part.  chunk is
the chain tail; ids are the remaining iterated chunk ids; next_part holds the
best candidate id found so far.  When a second in-range candidate appears,
the source evaluates next_part.clock_start on an int id, which raises
AttributeError. -/
def find_next_loop (store : List SChunk) (maxGap : Int) (chunk : SChunk)
    (chunk_id : Nat) (newIds : List (Nat × Bool)) :
    List Nat → Option Nat → Except Err (Option Nat)
  | [], next_part => .ok next_part
  | id2 :: rest, next_part =>
    if chunk_id = id2 ∨ idInPairs id2 newIds then
      find_next_loop store maxGap chunk chunk_id newIds rest next_part
    else
      match query_chunk_by_id store id2 with
      | none => .error .attributeError
      | some chunk2 =>
        let delta := chunk2.clock_start - chunk.clock_end
        if delta < 0 ∨ maxGap < delta then
          find_next_loop store maxGap chunk chunk_id newIds rest next_part
        else
          match next_part with
          | none => find_next_loop store maxGap chunk chunk_id newIds rest (some id2)
          | some _ => .error .attributeError

/-- Translation of one call of Main.sort.find_next_part: load the tail chunk
and scan the candidate ids. -/
def find_next_part (store : List SChunk) (maxGap : Int) (old_ids : List Nat)
    (newIds : List (Nat × Bool)) (chunk_id : Nat) : Except Err (Option Nat) :=
  match query_chunk_by_id store chunk_id with
  | none => .error .attributeError
  | some chunk => find_next_loop store maxGap chunk chunk_id newIds old_ids none

/-- C5: with a chain tail (clock_end 100) and two unclaimed candidates within
max_sort_gap (clock_start 120, delta 20, and clock_start 150, delta 50), the
linker does not pick the nearest successor: it raises AttributeError as soon
as the second candidate is compared, because next_part holds a chunk id, not
a chunk object. -/
theorem find_next_part_two_candidates :
    find_next_part [⟨1, 0, 100⟩, ⟨2, 120, 300⟩, ⟨3, 150, 400⟩] 90000
      [1, 2, 3] [] 1 = .error .attributeError ∧
    ∀ o : Option Nat,
      (Except.error Err.attributeError : Except Err (Option Nat)) ≠ .ok o := by
  refine ⟨by rfl, ?_⟩
  intro o h
  cases h

/-! ## Exporter (Main.export.extract_chunk) -/

/-- Chunk row as the exporter sees it, in position order. -/
structure EChunk where
  block_start : Nat
  block_size : Nat
  concat : Bool
  deriving Repr, DecidableEq

/-- Translation of the concatenation loop of extract_chunk: walk the chunks
after the selected one, copying while concat is set, stopping at the first
head chunk (break) or the end of the list. -/
def extract_loop : List EChunk → List EChunk
  | [] => []
  | c :: rest => if c.concat then c :: extract_loop rest else []

/-- Translation of Main.export.extract_chunk, returning the list of chunks
whose data is copied to the output file in order: fail with ExportError when
the selected chunk is a continuation, else copy it and the following
continuation run.  An out-of-range index raises IndexError in Python; the
caller checks bounds first, so it is mapped to unexpectedResult here. -/
def extract_chunk (chunks : List EChunk) (chunk_index : Nat) :
    Except Err (List EChunk) :=
  match chunks.get? chunk_index with
  | none => .error .unexpectedResult
  | some chunk =>
    if chunk.concat then .error .exportError
    else .ok (chunk :: extract_loop (chunks.drop (chunk_index + 1)))

/-- Spec-side description of a chain: the selected chunk followed by each
subsequent chunk in position order while concat is true, stopping at the
next head chunk or the end of the set. -/
def specChain (chunks : List EChunk) (i : Nat) : List EChunk :=
  match chunks.get? i with
  | none => []
  | some c => c :: (chunks.drop (i + 1)).takeWhile (fun c => c.concat)

/-- The copy loop is exactly a takeWhile on the concat flag. -/
theorem extract_loop_eq_takeWhile (l : List EChunk) :
    extract_loop l = l.takeWhile (fun c => c.concat) := by
  induction l with
  | nil => rfl
  | cons c rest ih =>
    by_cases h : c.concat <;> simp [extract_loop, List.takeWhile_cons, h, ih]

/-- C8: exporting the chunk at a valid index fails with the export-class
error exactly when that chunk has concat = true; when concat = false the
chunks copied are the selected chunk followed by the run of subsequent
continuation chunks, up to the next head chunk or the end of the set. -/
theorem extract_chunk_spec (chunks : List EChunk) (i : Nat)
    (hi : i < chunks.length) :
    (extract_chunk chunks i = .error .exportError ↔
      (chunks.get ⟨i, hi⟩).concat = true) ∧
    ((chunks.get ⟨i, hi⟩).concat = false →
      extract_chunk chunks i = .ok (specChain chunks i)) := by
  have hget : chunks.get? i = some (chunks.get ⟨i, hi⟩) := List.get?_eq_get hi
  constructor
  · constructor
    · intro h
      simp only [extract_chunk, hget] at h
      by_cases hc : (chunks.get ⟨i, hi⟩).concat
      · exact hc
      · rw [if_neg hc] at h
        cases h
    · intro hc
      simp only [extract_chunk, hget, if_pos hc]
  · intro hc
    simp only [extract_chunk, hget, hc, if_neg (by simp : ¬False)]
    simp only [specChain, hget, extract_loop_eq_takeWhile]
    simp

/-- Witness for the export characterization at a concrete chunk set. -/
theorem extract_chunk_spec_witness :
    (extract_chunk [⟨0, 1, false⟩, ⟨5, 2, true⟩, ⟨9, 3, false⟩] 0 =
        .error .exportError ↔
      (([⟨0, 1, false⟩, ⟨5, 2, true⟩, ⟨9, 3, false⟩] :
        List EChunk).get ⟨0, by decide⟩).concat = true) ∧
    ((([⟨0, 1, false⟩, ⟨5, 2, true⟩, ⟨9, 3, false⟩] :
        List EChunk).get ⟨0, by decide⟩).concat = false →
      extract_chunk [⟨0, 1, false⟩, ⟨5, 2, true⟩, ⟨9, 3, false⟩] 0 =
        .ok (specChain [⟨0, 1, false⟩, ⟨5, 2, true⟩, ⟨9, 3, false⟩] 0)) :=
  extract_chunk_spec [⟨0, 1, false⟩, ⟨5, 2, true⟩, ⟨9, 3, false⟩] 0 (by decide)

end DvrRecover
